import Mathlib

/-!
Verification of the incremental reconciliation engine of the eagle-symlink
repository (src/lib/core.ts, src/lib/executors.ts, src/lib/types.ts).

Modelling conventions:
* TypeScript strings are Lean `String` (a list of characters); the JS
  methods `toLowerCase` / `toUpperCase` / `slice(0, 8)` are modelled by
  character-wise ASCII maps and a prefix take (`strToLower`, `strToUpper`,
  `strTake`).
* `path.join(dir, name)` is modelled with the separator "/", and
  `path.basename` takes the component after the last "/".
* A JS `Set<string>` is modelled as a `List String`: `add` is cons and
  membership is `List.contains` (duplicates in the list are harmless since
  only membership is ever consulted).
* A JS object used as a string-keyed map (`SyncIndex`) is modelled as an
  association list in insertion order: `Object.keys`/`Object.entries`
  iterate in insertion order, `obj[k] = v` updates in place when the key is
  present and appends otherwise (`indexInsert`), and `delete obj[k]` removes
  the entry (`eraseByPath` removes the first entry holding a given value,
  matching the scan-by-value-then-break loops of the source).
* The filesystem and the external link primitives of `eagle-cooltils` are
  out of the repository; executors are embedded as pure functions over an
  oracle `FsEnv` recording, for each path, what `fs.lstat` / `fs.stat`
  observe and whether `fs.rm`, `createEntrySymlink`, `createItemFileSymlink`,
  `fs.mkdir` and `fs.copyFile` succeed.  A raised error is a `false`/
  `.errored` oracle answer; `await p.catch(() => null)` maps `.errored` to
  the null outcome, as in the source.
-/

namespace EagleSync

/-- Model of JS `String.prototype.toLowerCase` on one ASCII character. -/
def charToLower (c : Char) : Char :=
  if 'A' ≤ c ∧ c ≤ 'Z' then Char.ofNat (c.toNat + 32) else c

/-- Model of JS `String.prototype.toUpperCase` on one ASCII character. -/
def charToUpper (c : Char) : Char :=
  if 'a' ≤ c ∧ c ≤ 'z' then Char.ofNat (c.toNat - 32) else c

/-- Model of JS `s.toLowerCase()`. -/
def strToLower (s : String) : String := ⟨s.data.map charToLower⟩

/-- Model of JS `s.toUpperCase()`. -/
def strToUpper (s : String) : String := ⟨s.data.map charToUpper⟩

/-- Model of JS `s.slice(0, n)`. -/
def strTake (s : String) (n : Nat) : String := ⟨s.data.take n⟩

/-- Model of node `path.join(dir, name)` for one component. -/
def pathJoin (dir name : String) : String := dir ++ "/" ++ name

/-- Model of node `path.basename`: the component after the last separator. -/
def basename (p : String) : String :=
  ⟨(p.data.reverse.takeWhile (fun c => c ≠ '/')).reverse⟩

/-- Model of node `path.dirname`: everything before the last separator. -/
def dirname (p : String) : String :=
  ⟨((p.data.reverse.dropWhile (fun c => c ≠ '/')).drop 1).reverse⟩

/-- `src/lib/types.ts` `SyncItem`: minimal item info needed for sync. -/
structure SyncItem where
  id : String
  name : String
  ext : String
  filePath : String
deriving DecidableEq, Repr

/-- `src/lib/types.ts` `SyncIndex`: maps item ID to target path (a JS
object, modelled as an association list in insertion order). -/
abbrev SyncIndex := List (String × String)

/-- One element of `SyncPlan.toCreate`: `{ item; targetPath }`. -/
structure CreateEntry where
  item : SyncItem
  targetPath : String
deriving DecidableEq, Repr

/-- `src/lib/types.ts` `SkippedItem.reason`: `'missing-file' | 'error'`. -/
inductive SkipReason where
  | missingFile
  | error
deriving DecidableEq, Repr

/-- `src/lib/types.ts` `SkippedItem` (the `error?` payload is dropped). -/
structure SkippedItem where
  item : SyncItem
  reason : SkipReason
deriving DecidableEq, Repr

/-- `src/lib/types.ts` `SyncPlan`. -/
structure SyncPlan where
  toCreate : List CreateEntry
  toRemove : List String
  skipped : List SkippedItem
deriving DecidableEq, Repr

/-- `src/lib/types.ts` `SyncMode`: `'entry-dir' | 'entry-file' | 'copy'`. -/
inductive SyncMode where
  | entryDir
  | entryFile
  | copy
deriving DecidableEq, Repr

/-- `src/lib/types.ts` `DirLinkType`: `'junction' | 'dir'`. -/
inductive DirLinkType where
  | junction
  | dir
deriving DecidableEq, Repr

/-- One element of `SyncResult.errors`: `{ item?; path?; error }` (the
`error` payload itself is dropped, only the keying is kept). -/
structure SyncError where
  item : Option SyncItem
  path : Option String
deriving DecidableEq, Repr

/-- `src/lib/types.ts` `SyncResult`. -/
structure SyncResult where
  created : Nat
  removed : Nat
  skipped : Nat
  newIndex : SyncIndex
  errors : List SyncError
deriving DecidableEq, Repr

/-- `src/lib/core.ts` `INVALID_FILENAME_CHARS`: the class
matched by the regex `[<>:"/\\|?*]`. -/
def isInvalidFilenameChar (c : Char) : Bool :=
  c == '<' || c == '>' || c == ':' || c == '"' || c == '/' || c == '\\' ||
  c == '|' || c == '?' || c == '*'

/-- `src/lib/core.ts` `sanitizeFilename`: replace every invalid character
with an underscore. -/
def sanitizeFilename (name : String) : String :=
  ⟨name.data.map (fun c => if isInvalidFilenameChar c then '_' else c)⟩

/-- The simple file name of `generateTargetPath`:
`baseName = safeName + '.' + item.ext` built on `safeName =
sanitizeFilename(item.name)`. -/
def baseRender (item : SyncItem) : String :=
  sanitizeFilename item.name ++ "." ++ item.ext

/-- The collision file name of `generateTargetPath`:
`safeName + ' (' + idPart + ').' + item.ext` with
`idPart = item.id.slice(0, 8).toUpperCase()`. -/
def collRender (item : SyncItem) : String :=
  sanitizeFilename item.name ++ " (" ++ strToUpper (strTake item.id 8) ++ ")." ++
    item.ext

/-- `src/lib/core.ts` `generateTargetPath`. -/
def generateTargetPath (item : SyncItem) (targetDir : String) (mode : SyncMode)
    (existingNames : List String := []) : String :=
  match mode with
  | SyncMode.entryDir => pathJoin targetDir (item.id ++ ".info")
  | _ =>
    let baseName := baseRender item
    if !existingNames.contains (strToLower baseName) then
      pathJoin targetDir baseName
    else
      pathJoin targetDir (collRender item)

/-- One iteration of the creation loop of `computeSyncPlan`: an item whose
id is already indexed is passed over; otherwise its target path is
generated against the accumulated `existingNames`, appended to `toCreate`,
and its final path component (lower-cased) is added to `existingNames`. -/
def planCreateStep (indexedIds : List String) (targetDir : String)
    (mode : SyncMode) (acc : List CreateEntry × List String) (it : SyncItem) :
    List CreateEntry × List String :=
  if indexedIds.contains it.id then acc
  else
    let targetPath := generateTargetPath it targetDir mode acc.2
    (acc.1 ++ [⟨it, targetPath⟩], strToLower (basename targetPath) :: acc.2)

/-- The first loop of `computeSyncPlan`: collect the lower-cased final
path component of every index entry whose item is both filtered and
already indexed (names of items that stay). -/
def planExistingNames (items : List SyncItem) (currentIndex : SyncIndex) :
    List String :=
  items.foldl (fun names it =>
    if (currentIndex.map Prod.fst).contains it.id then
      strToLower (basename ((List.lookup it.id currentIndex).getD "")) :: names
    else names) []

/-- `src/lib/core.ts` `computeSyncPlan`.  The loops of the source are
embedded as left folds in source order; the local sets `indexedIds` and
`filteredIds` of the source are inlined as `currentIndex.map Prod.fst` and
`items.map SyncItem.id`. -/
def computeSyncPlan (items : List SyncItem) (currentIndex : SyncIndex)
    (mode : SyncMode) (targetDir : String) : SyncPlan :=
  { toCreate :=
      (items.foldl (planCreateStep (currentIndex.map Prod.fst) targetDir mode)
        ([], planExistingNames items currentIndex)).1,
    toRemove :=
      currentIndex.foldl (fun acc e =>
        if (items.map SyncItem.id).contains e.1 then acc else acc ++ [e.2]) [],
    skipped := [] }

/-- Model of `newIndex[itemId] = targetPath` on a JS object: update in
place when the key exists, append otherwise. -/
def indexInsert (idx : SyncIndex) (k v : String) : SyncIndex :=
  if idx.any (fun e => e.1 == k) then
    idx.map (fun e => if e.1 == k then (k, v) else e)
  else idx ++ [(k, v)]

/-- The loop adding `item.id → targetPath` to a working index for every
entry of a creation list (`buildNewIndex` phase 2, and the success path of
the executors' creation loops). -/
def insertFold (idx : SyncIndex) (l : List CreateEntry) : SyncIndex :=
  l.foldl (fun i e => indexInsert i e.item.id e.targetPath) idx

/-- The scan-by-value loop shared by `buildNewIndex` and the executors:
find the first index entry whose path is `p`, delete it, and break. -/
def eraseByPath : SyncIndex → String → SyncIndex
  | [], _ => []
  | e :: rest, p => if e.2 == p then rest else e :: eraseByPath rest p

/-- The removal loop over all removed paths. -/
def removeIndexEntries (idx : SyncIndex) (paths : List String) : SyncIndex :=
  paths.foldl eraseByPath idx

/-- `src/lib/core.ts` `buildNewIndex`: drop the entry matching each removed
path, then add an entry per created item. -/
def buildNewIndex (currentIndex : SyncIndex) (plan : SyncPlan) : SyncIndex :=
  insertFold (removeIndexEntries currentIndex plan.toRemove) plan.toCreate

/-- Outcome of a probe (`fs.lstat` / `fs.stat`) before any `.catch`:
an entry was found, nothing was found (ENOENT), or the probe raised some
other error.  `await probe.catch(() => null)` maps both `notFound` and
`errored` to the null outcome. -/
inductive ProbeResult where
  | found
  | notFound
  | errored
deriving DecidableEq, Repr

/-- Oracle for the filesystem and the external `eagle-cooltils` link
primitives used by `src/lib/executors.ts`.  A `false` answer means the
operation raises. -/
structure FsEnv where
  /-- `fs.lstat(targetPath)` in `executeRemovals`. -/
  lstat : String → ProbeResult
  /-- `fs.rm(targetPath, { recursive: true, force: true })` succeeds. -/
  rmOk : String → Bool
  /-- `fs.stat(item.filePath)` in `executeEntryFile` / `executeCopy`. -/
  statSrc : String → ProbeResult
  /-- `createEntrySymlink(libraryPath, item.id, targetPath, ...)` succeeds. -/
  entryLinkOk : String → String → String → Bool
  /-- `createItemFileSymlink(item.filePath, targetPath, ...)` succeeds. -/
  fileLinkOk : String → String → Bool
  /-- `fs.mkdir(path.dirname(targetPath), { recursive: true })` succeeds. -/
  mkdirOk : String → Bool
  /-- `fs.copyFile(item.filePath, targetPath)` succeeds. -/
  copyOk : String → String → Bool

/-- `src/lib/executors.ts` `ExecuteOptions`. -/
structure ExecuteOptions where
  libraryPath : String
  dirLinkType : Option DirLinkType
deriving DecidableEq, Repr

/-- Accumulator of `executeRemovals`. -/
structure RemovalOutcome where
  removed : Nat
  errors : List SyncError
deriving DecidableEq, Repr

/-- One iteration of the `executeRemovals` loop: probe with `lstat`
(errors swallowed by `.catch(() => null)`); when something is there,
remove it, counting success and recording a path-keyed error on failure. -/
def removalStep (env : FsEnv) (acc : RemovalOutcome) (targetPath : String) :
    RemovalOutcome :=
  match env.lstat targetPath with
  | ProbeResult.found =>
    if env.rmOk targetPath then { acc with removed := acc.removed + 1 }
    else { acc with errors := acc.errors ++ [⟨none, some targetPath⟩] }
  | _ => acc

/-- `src/lib/executors.ts` `executeRemovals`. -/
def executeRemovals (env : FsEnv) (toRemove : List String) : RemovalOutcome :=
  toRemove.foldl (removalStep env) ⟨0, []⟩

/-- One iteration of the creation loop of `executeEntryDir`. -/
def entryDirStep (env : FsEnv) (options : ExecuteOptions) (r : SyncResult)
    (e : CreateEntry) : SyncResult :=
  if env.entryLinkOk options.libraryPath e.item.id e.targetPath then
    { r with created := r.created + 1,
             newIndex := indexInsert r.newIndex e.item.id e.targetPath }
  else
    { r with errors := r.errors ++ [⟨some e.item, none⟩] }

/-- `src/lib/executors.ts` `executeEntryDir`: removals first, then
creations, then the scan deleting the index entry of each removed path. -/
def executeEntryDir (env : FsEnv) (plan : SyncPlan) (currentIndex : SyncIndex)
    (options : ExecuteOptions) : SyncResult :=
  let removalResult := executeRemovals env plan.toRemove
  let init : SyncResult :=
    { created := 0, removed := removalResult.removed,
      skipped := plan.skipped.length, newIndex := currentIndex,
      errors := removalResult.errors }
  let afterCreate := plan.toCreate.foldl (entryDirStep env options) init
  { afterCreate with
      newIndex := removeIndexEntries afterCreate.newIndex plan.toRemove }

/-- One iteration of the creation loop of `executeEntryFile`: probe the
source file (`fs.stat(...).catch(() => null)`), skip when nothing is
observed, else link, recording an item-keyed error on failure. -/
def entryFileStep (env : FsEnv) (r : SyncResult) (e : CreateEntry) :
    SyncResult :=
  match env.statSrc e.item.filePath with
  | ProbeResult.found =>
    if env.fileLinkOk e.item.filePath e.targetPath then
      { r with created := r.created + 1,
               newIndex := indexInsert r.newIndex e.item.id e.targetPath }
    else { r with errors := r.errors ++ [⟨some e.item, none⟩] }
  | _ => { r with skipped := r.skipped + 1 }

/-- `src/lib/executors.ts` `executeEntryFile`. -/
def executeEntryFile (env : FsEnv) (plan : SyncPlan) (currentIndex : SyncIndex)
    (_options : ExecuteOptions) : SyncResult :=
  let removalResult := executeRemovals env plan.toRemove
  let init : SyncResult :=
    { created := 0, removed := removalResult.removed,
      skipped := plan.skipped.length, newIndex := currentIndex,
      errors := removalResult.errors }
  let afterCreate := plan.toCreate.foldl (entryFileStep env) init
  { afterCreate with
      newIndex := removeIndexEntries afterCreate.newIndex plan.toRemove }

/-- One iteration of the creation loop of `executeCopy`: probe the source,
skip when nothing is observed, else ensure the parent directory and copy;
a raise from either `mkdir` or `copyFile` records one item-keyed error. -/
def copyStep (env : FsEnv) (r : SyncResult) (e : CreateEntry) : SyncResult :=
  match env.statSrc e.item.filePath with
  | ProbeResult.found =>
    if env.mkdirOk (dirname e.targetPath) then
      if env.copyOk e.item.filePath e.targetPath then
        { r with created := r.created + 1,
                 newIndex := indexInsert r.newIndex e.item.id e.targetPath }
      else { r with errors := r.errors ++ [⟨some e.item, none⟩] }
    else { r with errors := r.errors ++ [⟨some e.item, none⟩] }
  | _ => { r with skipped := r.skipped + 1 }

/-- `src/lib/executors.ts` `executeCopy`. -/
def executeCopy (env : FsEnv) (plan : SyncPlan) (currentIndex : SyncIndex)
    (_options : ExecuteOptions) : SyncResult :=
  let removalResult := executeRemovals env plan.toRemove
  let init : SyncResult :=
    { created := 0, removed := removalResult.removed,
      skipped := plan.skipped.length, newIndex := currentIndex,
      errors := removalResult.errors }
  let afterCreate := plan.toCreate.foldl (copyStep env) init
  { afterCreate with
      newIndex := removeIndexEntries afterCreate.newIndex plan.toRemove }

/-- `src/lib/executors.ts` `executePlan`: dispatch on the mode. -/
def executePlan (env : FsEnv) (plan : SyncPlan) (mode : SyncMode)
    (currentIndex : SyncIndex) (options : ExecuteOptions) : SyncResult :=
  match mode with
  | SyncMode.entryDir => executeEntryDir env plan currentIndex options
  | SyncMode.entryFile => executeEntryFile env plan currentIndex options
  | SyncMode.copy => executeCopy env plan currentIndex options

/-- The removal loop attempts a deletion at `p` exactly when the
`lstat` probe (with errors swallowed) observes an entry. -/
def removalAttempted (env : FsEnv) (p : String) : Bool :=
  match env.lstat p with
  | ProbeResult.found => true
  | _ => false

/-- The creation loop skips an entry exactly when the mode probes the
source file and the probe (with errors swallowed) observes nothing. -/
def createSkipped (env : FsEnv) (mode : SyncMode) (e : CreateEntry) : Bool :=
  match mode with
  | SyncMode.entryDir => false
  | _ =>
    match env.statSrc e.item.filePath with
    | ProbeResult.found => false
    | _ => true

/-- The mode-specific creation operations all succeed for an entry. -/
def createOk (env : FsEnv) (options : ExecuteOptions) (mode : SyncMode)
    (e : CreateEntry) : Bool :=
  match mode with
  | SyncMode.entryDir => env.entryLinkOk options.libraryPath e.item.id e.targetPath
  | SyncMode.entryFile => env.fileLinkOk e.item.filePath e.targetPath
  | SyncMode.copy =>
    env.mkdirOk (dirname e.targetPath) && env.copyOk e.item.filePath e.targetPath

/-- The common shape of the three executors' creation loop bodies, with the
skip test and the success test abstracted. -/
def genericCreateStep (skip ok : CreateEntry → Bool) (r : SyncResult)
    (e : CreateEntry) : SyncResult :=
  if skip e then { r with skipped := r.skipped + 1 }
  else if ok e then
    { r with created := r.created + 1,
             newIndex := indexInsert r.newIndex e.item.id e.targetPath }
  else { r with errors := r.errors ++ [⟨some e.item, none⟩] }

/-- The working index produced by a creation loop: insert exactly the
entries that are neither skipped nor failed. -/
def condInsertFold (skip ok : CreateEntry → Bool) (idx : SyncIndex)
    (l : List CreateEntry) : SyncIndex :=
  l.foldl
    (fun i e =>
      if !skip e && ok e then indexInsert i e.item.id e.targetPath else i) idx

/-- Closed form of one executor run, proved equal to `executePlan` below:
counts, errors and the final working index, each expressed as a filter
over the plan. -/
def executeSpec (env : FsEnv) (options : ExecuteOptions) (mode : SyncMode)
    (plan : SyncPlan) (currentIndex : SyncIndex) : SyncResult :=
  { created :=
      (plan.toCreate.filter fun e =>
        !createSkipped env mode e && createOk env options mode e).length,
    removed :=
      (plan.toRemove.filter fun p => removalAttempted env p && env.rmOk p).length,
    skipped :=
      plan.skipped.length + (plan.toCreate.filter (createSkipped env mode)).length,
    newIndex :=
      removeIndexEntries
        (condInsertFold (createSkipped env mode) (createOk env options mode)
          currentIndex plan.toCreate)
        plan.toRemove,
    errors :=
      (plan.toRemove.filter fun p => removalAttempted env p && !env.rmOk p).map
          (fun p => ⟨none, some p⟩)
        ++ (plan.toCreate.filter fun e =>
              !createSkipped env mode e && !createOk env options mode e).map
            (fun e => ⟨some e.item, none⟩) }

/-- `s` contains no path separator. -/
def noSlash (s : String) : Prop := '/' ∉ s.data

instance (s : String) : Decidable (noSlash s) := by
  unfold noSlash
  exact inferInstance

/-- Two items clash on rendered names when the collision rendering of the
later one coincides, case-insensitively, with either rendering of the
earlier one.  `generateTargetPath` never tests its collision name against
`existingNames`, so such a clash is exactly what can defeat per-run name
uniqueness. -/
def collClash (a b : SyncItem) : Prop :=
  strToLower (collRender b) = strToLower (baseRender a)
    ∨ strToLower (collRender b) = strToLower (collRender a)

instance (a b : SyncItem) : Decidable (collClash a b) := by
  unfold collClash
  exact inferInstance

/-- Fixture: an item with a derived source path, for concrete runs. -/
def mkItem (id name ext : String) : SyncItem := ⟨id, name, ext, "src/" ++ id⟩

/-- Fixture: an oracle under which every probe finds an entry and every
operation succeeds. -/
def envAllOk : FsEnv :=
  ⟨fun _ => ProbeResult.found, fun _ => true, fun _ => ProbeResult.found,
   fun _ _ _ => true, fun _ _ => true, fun _ => true, fun _ _ => true⟩

/-- Fixture: as `envAllOk` except the source file `src/A` is absent. -/
def envMissingA : FsEnv :=
  { envAllOk with
      statSrc := fun p =>
        if p == "src/A" then ProbeResult.notFound else ProbeResult.found }

/-- Fixture: as `envAllOk` except every `lstat` probe raises (and any
removal that were attempted would fail). -/
def envProbeRaises : FsEnv :=
  { envAllOk with lstat := fun _ => ProbeResult.errored, rmOk := fun _ => false }

/-- Fixture: default execution options. -/
def optsLib : ExecuteOptions := ⟨"lib", none⟩

lemma contains_true_iff {l : List String} {a : String} :
    l.contains a = true ↔ a ∈ l :=
  List.elem_iff

lemma contains_false_iff {l : List String} {a : String} :
    l.contains a = false ↔ a ∉ l := by
  rw [← contains_true_iff]
  cases l.contains a <;> simp

lemma takeWhile_append_stop {p : Char → Bool} {l1 l2 : List Char} {a : Char}
    (h1 : ∀ x ∈ l1, p x = true) (h2 : p a = false) :
    (l1 ++ a :: l2).takeWhile p = l1 := by
  induction l1 with
  | nil => simp [List.takeWhile_cons, h2]
  | cons x xs ih =>
    have hx : p x = true := h1 x (by simp)
    simp only [List.cons_append, List.takeWhile_cons, hx, if_true]
    rw [ih (fun y hy => h1 y (by simp [hy]))]

lemma basename_pathJoin {name : String} (dir : String) (h : noSlash name) :
    basename (pathJoin dir name) = name := by
  unfold basename pathJoin
  refine String.ext ?_
  have hdata : (dir ++ "/" ++ name).data = (dir.data ++ ['/']) ++ name.data := by
    simp [String.data_append]
  rw [hdata, List.reverse_append, List.reverse_append]
  have hstop : (name.data.reverse ++ (['/'].reverse ++ dir.data.reverse)).takeWhile
      (fun c => decide (c ≠ '/')) = name.data.reverse := by
    have : ['/'].reverse ++ dir.data.reverse = '/' :: dir.data.reverse := by simp
    rw [this]
    refine takeWhile_append_stop ?_ (by simp)
    intro x hx
    have hxmem : x ∈ name.data := by simpa using hx
    simp only [decide_eq_true_eq]
    intro hcontr
    exact h (hcontr ▸ hxmem)
  simp only [hstop, List.reverse_reverse]

lemma noSlash_sanitize (s : String) : noSlash (sanitizeFilename s) := by
  unfold noSlash sanitizeFilename
  intro hmem
  simp only [List.mem_map] at hmem
  obtain ⟨c, _, hEq⟩ := hmem
  by_cases hinv : isInvalidFilenameChar c = true
  · simp [hinv] at hEq
  · simp only [Bool.not_eq_true] at hinv
    rw [if_neg (by simp [hinv])] at hEq
    subst hEq
    simp [isInvalidFilenameChar] at hinv

lemma noSlash_append {a b : String} (ha : noSlash a) (hb : noSlash b) :
    noSlash (a ++ b) := by
  unfold noSlash at *
  rw [String.data_append]
  intro hmem
  rcases List.mem_append.mp hmem with hcase | hcase
  · exact ha hcase
  · exact hb hcase

lemma noSlash_baseRender {it : SyncItem} (hext : noSlash it.ext) :
    noSlash (baseRender it) := by
  unfold baseRender
  exact noSlash_append (noSlash_append (noSlash_sanitize _) (by decide)) hext

lemma noSlash_collRender {it : SyncItem} (hext : noSlash it.ext)
    (hid : noSlash (strToUpper (strTake it.id 8))) :
    noSlash (collRender it) := by
  unfold collRender
  exact noSlash_append
    (noSlash_append (noSlash_append (noSlash_append (noSlash_sanitize _)
      (by decide)) hid) (by decide)) hext

lemma removeCollect_foldl (filteredIds : List String) (idx : SyncIndex) :
    ∀ acc : List String,
    idx.foldl (fun acc e => if filteredIds.contains e.1 then acc else acc ++ [e.2])
        acc
      = acc ++ (idx.filter fun e => !filteredIds.contains e.1).map Prod.snd := by
  induction idx with
  | nil => intro acc; simp
  | cons e rest ih =>
    intro acc
    rw [List.foldl_cons, List.filter_cons]
    cases h : filteredIds.contains e.1
    · rw [if_neg (by simp [h]), ih, if_pos (by simp [h])]
      simp [List.append_assoc]
    · rw [if_pos (by simp [h]), ih, if_neg (by simp [h])]

lemma computeSyncPlan_toRemove (items : List SyncItem) (idx : SyncIndex)
    (mode : SyncMode) (dir : String) :
    (computeSyncPlan items idx mode dir).toRemove
      = (idx.filter fun e => !(items.map SyncItem.id).contains e.1).map Prod.snd := by
  show idx.foldl _ [] = _
  rw [removeCollect_foldl]
  simp

lemma planCreateStep_fresh {ids : List String} {dir : String} {mode : SyncMode}
    {acc : List CreateEntry × List String} {it : SyncItem}
    (h : ids.contains it.id = false) :
    planCreateStep ids dir mode acc it
      = (acc.1 ++ [⟨it, generateTargetPath it dir mode acc.2⟩],
         strToLower (basename (generateTargetPath it dir mode acc.2)) :: acc.2) := by
  unfold planCreateStep
  rw [h]
  simp

lemma planCreateStep_stale {ids : List String} {dir : String} {mode : SyncMode}
    {acc : List CreateEntry × List String} {it : SyncItem}
    (h : ids.contains it.id = true) :
    planCreateStep ids dir mode acc it = acc := by
  unfold planCreateStep
  rw [h]
  simp

lemma createFold_map_item (ids : List String) (dir : String) (mode : SyncMode) :
    ∀ (items : List SyncItem) (acc : List CreateEntry × List String),
    ((items.foldl (planCreateStep ids dir mode) acc).1).map CreateEntry.item
      = acc.1.map CreateEntry.item ++ items.filter (fun it => !ids.contains it.id) := by
  intro items
  induction items with
  | nil => intro acc; simp
  | cons it rest ih =>
    intro acc
    rw [List.foldl_cons, List.filter_cons]
    cases h : ids.contains it.id
    · rw [planCreateStep_fresh h, ih]
      simp [List.append_assoc]
    · rw [planCreateStep_stale h, ih]
      simp

lemma computeSyncPlan_toCreate_map_item (items : List SyncItem)
    (idx : SyncIndex) (mode : SyncMode) (dir : String) :
    (computeSyncPlan items idx mode dir).toCreate.map CreateEntry.item
      = items.filter (fun it => !(idx.map Prod.fst).contains it.id) := by
  show ((items.foldl (planCreateStep (idx.map Prod.fst) dir mode)
      ([], planExistingNames items idx)).1).map CreateEntry.item = _
  rw [createFold_map_item]
  simp

lemma createFold_mem (ids : List String) (dir : String) (mode : SyncMode) :
    ∀ (items : List SyncItem) (acc : List CreateEntry × List String)
      (e : CreateEntry),
    e ∈ (items.foldl (planCreateStep ids dir mode) acc).1 →
    e ∈ acc.1 ∨ (e.item ∈ items ∧ ids.contains e.item.id = false) := by
  intro items
  induction items with
  | nil => intro acc e h; exact Or.inl h
  | cons it rest ih =>
    intro acc e h
    rw [List.foldl_cons] at h
    rcases ih (planCreateStep ids dir mode acc it) e h with hacc | hrest
    · cases hcont : ids.contains it.id
      · rw [planCreateStep_fresh hcont] at hacc
        rcases List.mem_append.mp hacc with hold | hnew
        · exact Or.inl hold
        · refine Or.inr ?_
          have he : e = ⟨it, generateTargetPath it dir mode acc.2⟩ := by
            simpa using hnew
          subst he
          exact ⟨by simp, hcont⟩
      · rw [planCreateStep_stale hcont] at hacc
        exact Or.inl hacc
    · exact Or.inr ⟨by simp [hrest.1], hrest.2⟩

lemma computeSyncPlan_toCreate_mem {items : List SyncItem} {idx : SyncIndex}
    {mode : SyncMode} {dir : String} {e : CreateEntry}
    (h : e ∈ (computeSyncPlan items idx mode dir).toCreate) :
    e.item ∈ items ∧ (idx.map Prod.fst).contains e.item.id = false := by
  have hmem : e ∈ (items.foldl
      (planCreateStep (idx.map Prod.fst) dir mode)
      ([], planExistingNames items idx)).1 := h
  rcases createFold_mem (idx.map Prod.fst) dir mode items _ e hmem with
    hfalse | hgood
  · simp at hfalse
  · exact hgood

lemma removalFold_spec (env : FsEnv) :
    ∀ (l : List String) (acc : RemovalOutcome),
    l.foldl (removalStep env) acc
      = ⟨acc.removed
            + (l.filter fun p => removalAttempted env p && env.rmOk p).length,
         acc.errors
            ++ (l.filter fun p => removalAttempted env p && !env.rmOk p).map
                (fun p => ⟨none, some p⟩)⟩ := by
  intro l
  induction l with
  | nil => intro acc; simp
  | cons p rest ih =>
    intro acc
    rw [List.foldl_cons, List.filter_cons, List.filter_cons]
    cases h1 : env.lstat p
    case found =>
      cases h2 : env.rmOk p
      · rw [ih]
        simp [removalStep, removalAttempted, h1, h2, List.append_assoc]
      · rw [ih]
        simp [removalStep, removalAttempted, h1, h2]
        omega
    case notFound =>
      rw [ih]
      simp [removalStep, removalAttempted, h1]
    case errored =>
      rw [ih]
      simp [removalStep, removalAttempted, h1]

lemma executeRemovals_spec (env : FsEnv) (l : List String) :
    executeRemovals env l
      = ⟨(l.filter fun p => removalAttempted env p && env.rmOk p).length,
         (l.filter fun p => removalAttempted env p && !env.rmOk p).map
            (fun p => ⟨none, some p⟩)⟩ := by
  unfold executeRemovals
  rw [removalFold_spec]
  simp

lemma entryDirStep_eq (env : FsEnv) (opts : ExecuteOptions) :
    entryDirStep env opts
      = genericCreateStep (createSkipped env SyncMode.entryDir)
          (createOk env opts SyncMode.entryDir) := by
  funext r e
  cases h : env.entryLinkOk opts.libraryPath e.item.id e.targetPath <;>
    simp [entryDirStep, genericCreateStep, createSkipped, createOk, h]

lemma entryFileStep_eq (env : FsEnv) (opts : ExecuteOptions) :
    entryFileStep env
      = genericCreateStep (createSkipped env SyncMode.entryFile)
          (createOk env opts SyncMode.entryFile) := by
  funext r e
  cases h1 : env.statSrc e.item.filePath <;>
    cases h2 : env.fileLinkOk e.item.filePath e.targetPath <;>
      simp [entryFileStep, genericCreateStep, createSkipped, createOk, h1, h2]

lemma copyStep_eq (env : FsEnv) (opts : ExecuteOptions) :
    copyStep env
      = genericCreateStep (createSkipped env SyncMode.copy)
          (createOk env opts SyncMode.copy) := by
  funext r e
  cases h1 : env.statSrc e.item.filePath <;>
    cases h2 : env.mkdirOk (dirname e.targetPath) <;>
      cases h3 : env.copyOk e.item.filePath e.targetPath <;>
        simp [copyStep, genericCreateStep, createSkipped, createOk, h1, h2, h3]

lemma genericCreateFold_spec (skip ok : CreateEntry → Bool) :
    ∀ (l : List CreateEntry) (r : SyncResult),
    l.foldl (genericCreateStep skip ok) r
      = { created := r.created + (l.filter fun e => !skip e && ok e).length,
          removed := r.removed,
          skipped := r.skipped + (l.filter skip).length,
          newIndex := condInsertFold skip ok r.newIndex l,
          errors := r.errors ++ (l.filter fun e => !skip e && !ok e).map
              (fun e => ⟨some e.item, none⟩) } := by
  intro l
  induction l with
  | nil => intro r; simp [condInsertFold]
  | cons e rest ih =>
    intro r
    rw [List.foldl_cons, List.filter_cons, List.filter_cons, List.filter_cons]
    cases hs : skip e
    · cases ho : ok e
      · rw [ih]
        simp [genericCreateStep, condInsertFold, hs, ho, List.append_assoc]
      · rw [ih]
        simp [genericCreateStep, condInsertFold, hs, ho]
        omega
    · rw [ih]
      simp [genericCreateStep, condInsertFold, hs]
      omega

lemma executeEntryDir_spec (env : FsEnv) (plan : SyncPlan) (idx : SyncIndex)
    (opts : ExecuteOptions) :
    executeEntryDir env plan idx opts
      = executeSpec env opts SyncMode.entryDir plan idx := by
  unfold executeEntryDir
  rw [executeRemovals_spec, entryDirStep_eq env opts]
  dsimp only
  rw [genericCreateFold_spec]
  simp [executeSpec]

lemma executeEntryFile_spec (env : FsEnv) (plan : SyncPlan) (idx : SyncIndex)
    (opts : ExecuteOptions) :
    executeEntryFile env plan idx opts
      = executeSpec env opts SyncMode.entryFile plan idx := by
  unfold executeEntryFile
  rw [executeRemovals_spec, entryFileStep_eq env opts]
  dsimp only
  rw [genericCreateFold_spec]
  simp [executeSpec]

lemma executeCopy_spec (env : FsEnv) (plan : SyncPlan) (idx : SyncIndex)
    (opts : ExecuteOptions) :
    executeCopy env plan idx opts
      = executeSpec env opts SyncMode.copy plan idx := by
  unfold executeCopy
  rw [executeRemovals_spec, copyStep_eq env opts]
  dsimp only
  rw [genericCreateFold_spec]
  simp [executeSpec]

lemma executePlan_spec (env : FsEnv) (plan : SyncPlan) (mode : SyncMode)
    (idx : SyncIndex) (opts : ExecuteOptions) :
    executePlan env plan mode idx opts = executeSpec env opts mode plan idx := by
  cases mode
  · exact executeEntryDir_spec env plan idx opts
  · exact executeEntryFile_spec env plan idx opts
  · exact executeCopy_spec env plan idx opts

lemma condInsertFold_all {skip ok : CreateEntry → Bool} :
    ∀ (l : List CreateEntry) (idx : SyncIndex),
    (∀ e ∈ l, skip e = false ∧ ok e = true) →
    condInsertFold skip ok idx l = insertFold idx l := by
  intro l
  induction l with
  | nil => intro idx _; rfl
  | cons e rest ih =>
    intro idx h
    have he := h e (by simp)
    simp only [condInsertFold, insertFold, List.foldl_cons, he.1, he.2,
      Bool.not_false, Bool.and_self, if_true]
    exact ih _ (fun x hx => h x (by simp [hx]))

lemma any_key_eq_false_of_not_mem {A : SyncIndex} {k : String}
    (h : k ∉ A.map Prod.fst) : A.any (fun e => e.1 == k) = false := by
  rw [List.any_eq_false]
  intro e he hk
  exact h (List.mem_map.mpr ⟨e, he, by simpa using hk⟩)

lemma map_update_noop {A : SyncIndex} {k v : String}
    (h : k ∉ A.map Prod.fst) :
    A.map (fun e => if e.1 == k then (k, v) else e) = A := by
  induction A with
  | nil => rfl
  | cons e rest ih =>
    have hek : (e.1 == k) = false := by
      rw [beq_eq_false_iff_ne]
      intro hk
      exact h (by simp [hk])
    simp only [List.map_cons, hek, Bool.false_eq_true, if_false]
    rw [ih (fun hm => h (by simp [List.mem_map] at hm ⊢; tauto))]

lemma indexInsert_append {A B : SyncIndex} {k v : String}
    (h : k ∉ A.map Prod.fst) :
    indexInsert (A ++ B) k v = A ++ indexInsert B k v := by
  unfold indexInsert
  have hA := any_key_eq_false_of_not_mem h
  cases hB : B.any (fun e => e.1 == k)
  · rw [List.any_append, hA, hB]
    simp [List.append_assoc]
  · rw [List.any_append, hA, hB]
    simp only [Bool.false_or, if_true, List.map_append]
    rw [map_update_noop h]

lemma insertFold_append :
    ∀ (l : List CreateEntry) (A B : SyncIndex),
    (∀ e ∈ l, e.item.id ∉ A.map Prod.fst) →
    insertFold (A ++ B) l = A ++ insertFold B l := by
  intro l
  induction l with
  | nil => intro A B _; rfl
  | cons e rest ih =>
    intro A B h
    simp only [insertFold, List.foldl_cons]
    rw [indexInsert_append (h e (by simp))]
    exact ih A (indexInsert B e.item.id e.targetPath)
      (fun x hx => h x (by simp [hx]))

lemma mem_keys_indexInsert_self (A : SyncIndex) (k v : String) :
    k ∈ (indexInsert A k v).map Prod.fst := by
  unfold indexInsert
  cases h : A.any (fun e => e.1 == k)
  · simp
  · rw [List.any_eq_true] at h
    obtain ⟨e, he, hk⟩ := h
    refine List.mem_map.mpr ⟨(k, v), ?_, rfl⟩
    exact List.mem_map.mpr ⟨e, he, by simp [hk]⟩

lemma mem_keys_indexInsert_mono {A : SyncIndex} {k0 : String}
    (hk : k0 ∈ A.map Prod.fst) (k v : String) :
    k0 ∈ (indexInsert A k v).map Prod.fst := by
  unfold indexInsert
  cases h : A.any (fun e => e.1 == k)
  · rw [if_neg (by simp [h]), List.map_append]
    exact List.mem_append.mpr (Or.inl hk)
  · rw [if_pos (by simp [h])]
    obtain ⟨e, he, hfst⟩ := List.mem_map.mp hk
    cases hek : e.1 == k
    · exact List.mem_map.mpr ⟨e, List.mem_map.mpr ⟨e, he, by simp [hek]⟩, hfst⟩
    · have h2 : e.1 = k := by simpa using hek
      refine List.mem_map.mpr ⟨(k, v), List.mem_map.mpr ⟨e, he, by simp [hek]⟩, ?_⟩
      simp [← hfst, h2]

lemma mem_keys_insertFold_mono :
    ∀ (l : List CreateEntry) (A : SyncIndex) (k0 : String),
    k0 ∈ A.map Prod.fst → k0 ∈ (insertFold A l).map Prod.fst := by
  intro l
  induction l with
  | nil => intro A k0 h; exact h
  | cons e rest ih =>
    intro A k0 h
    simp only [insertFold, List.foldl_cons]
    exact ih _ k0 (mem_keys_indexInsert_mono h _ _)

lemma mem_keys_insertFold_of_mem {e : CreateEntry} :
    ∀ (l : List CreateEntry) (A : SyncIndex), e ∈ l →
    e.item.id ∈ (insertFold A l).map Prod.fst := by
  intro l
  induction l with
  | nil => intro A h; cases h
  | cons c rest ih =>
    intro A h
    rcases List.mem_cons.mp h with hc | hrest
    · subst hc
      simp only [insertFold, List.foldl_cons]
      exact mem_keys_insertFold_mono rest _ _ (mem_keys_indexInsert_self A _ _)
    · simp only [insertFold, List.foldl_cons]
      exact ih _ hrest

lemma keys_indexInsert_sub {A : SyncIndex} {k v k0 : String}
    (h : k0 ∈ (indexInsert A k v).map Prod.fst) :
    k0 ∈ A.map Prod.fst ∨ k0 = k := by
  unfold indexInsert at h
  by_cases hA : A.any (fun e => e.1 == k) = true
  · rw [if_pos hA] at h
    obtain ⟨e, he, hfst⟩ := List.mem_map.mp h
    obtain ⟨x, hx, hxe⟩ := List.mem_map.mp he
    by_cases hxk : (x.1 == k) = true
    · rw [if_pos hxk] at hxe
      right
      rw [← hfst, ← hxe]
    · rw [if_neg hxk] at hxe
      left
      exact List.mem_map.mpr ⟨x, hx, by rw [hxe, hfst]⟩
  · rw [if_neg hA, List.map_append] at h
    rcases List.mem_append.mp h with hmem | hmem
    · exact Or.inl hmem
    · right
      simpa using hmem

lemma mem_insertFold_sub {e0 : String × String} :
    ∀ (l : List CreateEntry) (A : SyncIndex), e0 ∈ insertFold A l →
    e0.1 ∈ A.map Prod.fst ∨ ∃ c ∈ l, c.item.id = e0.1 := by
  intro l
  induction l with
  | nil =>
    intro A h
    exact Or.inl (List.mem_map.mpr ⟨e0, h, rfl⟩)
  | cons c rest ih =>
    intro A h
    simp only [insertFold, List.foldl_cons] at h
    rcases ih _ h with hkeys | hin
    · rcases keys_indexInsert_sub hkeys with hold | hnew
      · exact Or.inl hold
      · exact Or.inr ⟨c, by simp, hnew.symm⟩
    · obtain ⟨x, hx, hxe⟩ := hin
      exact Or.inr ⟨x, by simp [hx], hxe⟩

lemma eraseByPath_append {A C : SyncIndex} {r : String}
    (h : r ∈ A.map Prod.snd) :
    eraseByPath (A ++ C) r = eraseByPath A r ++ C := by
  induction A with
  | nil => simp at h
  | cons e rest ih =>
    cases hb : e.2 == r
    · simp only [List.cons_append, eraseByPath, hb, Bool.false_eq_true, if_false,
        List.cons.injEq, true_and]
      refine ih ?_
      rcases List.mem_map.mp h with ⟨x, hx, hxe⟩
      rcases List.mem_cons.mp hx with hxhead | hxtail
      · exfalso
        subst hxhead
        rw [beq_eq_false_iff_ne] at hb
        exact hb hxe
      · exact List.mem_map.mpr ⟨x, hxtail, hxe⟩
    · simp [eraseByPath, hb]

lemma map_snd_eraseByPath (A : SyncIndex) (r : String) :
    (eraseByPath A r).map Prod.snd = (A.map Prod.snd).erase r := by
  induction A with
  | nil => rfl
  | cons e rest ih =>
    rw [List.map_cons, List.erase_cons]
    cases hb : e.2 == r
    · simp only [eraseByPath, hb, Bool.false_eq_true, if_false, List.map_cons]
      rw [ih]
    · simp [eraseByPath, hb]

lemma sublist_erase_of_cons_sublist {r : String} {rs m : List String}
    (h : (r :: rs).Sublist m) : rs.Sublist (m.erase r) := by
  induction m with
  | nil => cases h
  | cons x m2 ih =>
    rw [List.erase_cons]
    cases h with
    | cons _ h2 =>
      by_cases hx : (x == r) = true
      · rw [if_pos hx]
        exact List.sublist_of_cons_sublist h2
      · rw [if_neg hx]
        exact List.Sublist.cons x (ih h2)
    | cons₂ _ h2 =>
      rw [if_pos (by simp)]
      exact h2

lemma removeIndexEntries_append :
    ∀ (rs : List String) (A C : SyncIndex),
    rs.Sublist (A.map Prod.snd) →
    removeIndexEntries (A ++ C) rs = removeIndexEntries A rs ++ C := by
  intro rs
  induction rs with
  | nil => intro A C _; rfl
  | cons r rest ih =>
    intro A C h
    have hr : r ∈ A.map Prod.snd := h.subset (by simp)
    simp only [removeIndexEntries, List.foldl_cons]
    rw [eraseByPath_append hr]
    refine ih (eraseByPath A r) C ?_
    rw [map_snd_eraseByPath]
    exact sublist_erase_of_cons_sublist h

lemma eraseByPath_sublist (A : SyncIndex) (r : String) :
    (eraseByPath A r).Sublist A := by
  induction A with
  | nil => simp [eraseByPath]
  | cons e rest ih =>
    cases hb : e.2 == r
    · simp only [eraseByPath, hb, Bool.false_eq_true, if_false]
      exact List.Sublist.cons₂ e ih
    · simp only [eraseByPath, hb, if_true]
      exact List.Sublist.cons e (List.Sublist.refl rest)

lemma removeIndexEntries_sublist :
    ∀ (rs : List String) (A : SyncIndex), (removeIndexEntries A rs).Sublist A := by
  intro rs
  induction rs with
  | nil => intro A; exact List.Sublist.refl A
  | cons r rest ih =>
    intro A
    simp only [removeIndexEntries, List.foldl_cons]
    exact (ih (eraseByPath A r)).trans (eraseByPath_sublist A r)

lemma removeIndexEntries_head_skip {e : String × String} :
    ∀ (rs : List String) (rest : SyncIndex), e.2 ∉ rs →
    removeIndexEntries (e :: rest) rs = e :: removeIndexEntries rest rs := by
  intro rs
  induction rs with
  | nil => intro rest _; rfl
  | cons r rs2 ih =>
    intro rest h
    have hne : (e.2 == r) = false := by
      rw [beq_eq_false_iff_ne]
      intro hc
      exact h (by simp [hc])
    simp only [removeIndexEntries, List.foldl_cons, eraseByPath, hne,
      Bool.false_eq_true, if_false]
    exact ih (eraseByPath rest r) (fun hc => h (by simp [hc]))

lemma removeIndexEntries_filter (filteredIds : List String) :
    ∀ (idx : SyncIndex), (idx.map Prod.snd).Nodup →
    removeIndexEntries idx
        ((idx.filter fun e => !filteredIds.contains e.1).map Prod.snd)
      = idx.filter (fun e => filteredIds.contains e.1) := by
  intro idx
  induction idx with
  | nil => intro _; rfl
  | cons e rest ih =>
    intro hnd
    rw [List.map_cons, List.nodup_cons] at hnd
    rw [List.filter_cons, List.filter_cons]
    cases hc : filteredIds.contains e.1
    · rw [if_pos (show (!false) = true from rfl), if_neg (show ¬(false = true) by simp)]
      simp only [List.map_cons, removeIndexEntries, List.foldl_cons, eraseByPath,
        beq_self_eq_true, if_true]
      exact ih hnd.2
    · rw [if_neg (show ¬((!true) = true) by simp), if_pos (show (true = true) from rfl)]
      have hnm : e.2 ∉ (rest.filter fun x => !filteredIds.contains x.1).map Prod.snd := by
        intro hmem
        obtain ⟨x, hx, hxe⟩ := List.mem_map.mp hmem
        exact hnd.1 (List.mem_map.mpr ⟨x, List.mem_filter.mp hx |>.1, hxe⟩)
      rw [removeIndexEntries_head_skip _ _ hnm, ih hnd.2]

lemma executor_newIndex {env : FsEnv} {opts : ExecuteOptions} {mode : SyncMode}
    {plan : SyncPlan} {idx : SyncIndex}
    (hsucc : ∀ e ∈ plan.toCreate,
      createSkipped env mode e = false ∧ createOk env opts mode e = true) :
    (executePlan env plan mode idx opts).newIndex
      = removeIndexEntries (insertFold idx plan.toCreate) plan.toRemove := by
  rw [executePlan_spec]
  simp only [executeSpec]
  rw [condInsertFold_all plan.toCreate idx hsucc]

lemma plan_toCreate_fresh {items : List SyncItem} {idx : SyncIndex}
    {mode : SyncMode} {dir : String} :
    ∀ e ∈ (computeSyncPlan items idx mode dir).toCreate,
      e.item.id ∉ idx.map Prod.fst :=
  fun _ he => contains_false_iff.mp (computeSyncPlan_toCreate_mem he).2

lemma plan_toRemove_sublist (items : List SyncItem) (idx : SyncIndex)
    (mode : SyncMode) (dir : String) :
    ((computeSyncPlan items idx mode dir).toRemove).Sublist (idx.map Prod.snd) := by
  rw [computeSyncPlan_toRemove]
  exact List.Sublist.map Prod.snd (List.filter_sublist idx)

lemma newIndex_agree {env : FsEnv} {opts : ExecuteOptions} {mode : SyncMode}
    {items : List SyncItem} {idx : SyncIndex} {dir : String}
    (hsucc : ∀ e ∈ (computeSyncPlan items idx mode dir).toCreate,
      createSkipped env mode e = false ∧ createOk env opts mode e = true) :
    (executePlan env (computeSyncPlan items idx mode dir) mode idx opts).newIndex
      = buildNewIndex idx (computeSyncPlan items idx mode dir) := by
  rw [executor_newIndex hsucc]
  have hfresh := @plan_toCreate_fresh items idx mode dir
  have h1 : insertFold idx (computeSyncPlan items idx mode dir).toCreate
      = idx ++ insertFold [] (computeSyncPlan items idx mode dir).toCreate := by
    have h0 := insertFold_append (computeSyncPlan items idx mode dir).toCreate
      idx [] hfresh
    rwa [List.append_nil] at h0
  rw [h1, removeIndexEntries_append _ _ _ (plan_toRemove_sublist items idx mode dir)]
  unfold buildNewIndex
  have hfresh2 : ∀ e ∈ (computeSyncPlan items idx mode dir).toCreate,
      e.item.id ∉ (removeIndexEntries idx
        (computeSyncPlan items idx mode dir).toRemove).map Prod.fst := by
    intro e he hmem
    obtain ⟨x, hx, hxe⟩ := List.mem_map.mp hmem
    exact hfresh e he (List.mem_map.mpr
      ⟨x, (removeIndexEntries_sublist _ _).subset hx, hxe⟩)
  have h2 := insertFold_append (computeSyncPlan items idx mode dir).toCreate
    (removeIndexEntries idx (computeSyncPlan items idx mode dir).toRemove) [] hfresh2
  rw [List.append_nil] at h2
  exact h2.symm

lemma buildNewIndex_of_plan (items : List SyncItem) (idx : SyncIndex)
    (mode : SyncMode) (dir : String) (hvals : (idx.map Prod.snd).Nodup) :
    buildNewIndex idx (computeSyncPlan items idx mode dir)
      = idx.filter (fun e => (items.map SyncItem.id).contains e.1)
        ++ insertFold [] (computeSyncPlan items idx mode dir).toCreate := by
  unfold buildNewIndex
  rw [computeSyncPlan_toRemove, removeIndexEntries_filter _ _ hvals]
  have hfresh : ∀ e ∈ (computeSyncPlan items idx mode dir).toCreate,
      e.item.id ∉ (idx.filter
        (fun e => (items.map SyncItem.id).contains e.1)).map Prod.fst := by
    intro e he hmem
    obtain ⟨x, hx, hxe⟩ := List.mem_map.mp hmem
    exact plan_toCreate_fresh e he
      (List.mem_map.mpr ⟨x, (List.filter_sublist idx).subset hx, hxe⟩)
  have h0 := insertFold_append (computeSyncPlan items idx mode dir).toCreate
    (idx.filter (fun e => (items.map SyncItem.id).contains e.1)) [] hfresh
  rwa [List.append_nil] at h0

lemma mem_keys_buildNewIndex {items : List SyncItem} {idx : SyncIndex}
    {mode : SyncMode} {dir : String} (hvals : (idx.map Prod.snd).Nodup) :
    ∀ it ∈ items,
      it.id ∈ (buildNewIndex idx (computeSyncPlan items idx mode dir)).map
        Prod.fst := by
  intro it hit
  rw [buildNewIndex_of_plan items idx mode dir hvals, List.map_append]
  cases hc : (idx.map Prod.fst).contains it.id
  · have hmem : it ∈ (computeSyncPlan items idx mode dir).toCreate.map
        CreateEntry.item := by
      rw [computeSyncPlan_toCreate_map_item]
      exact List.mem_filter.mpr ⟨hit, by rw [hc]; rfl⟩
    obtain ⟨e, he, hei⟩ := List.mem_map.mp hmem
    refine List.mem_append.mpr (Or.inr ?_)
    have := mem_keys_insertFold_of_mem (computeSyncPlan items idx mode dir).toCreate
      [] he
    rwa [hei] at this
  · have hmem : it.id ∈ idx.map Prod.fst := contains_true_iff.mp hc
    obtain ⟨x, hx, hxe⟩ := List.mem_map.mp hmem
    refine List.mem_append.mpr (Or.inl (List.mem_map.mpr ⟨x, ?_, hxe⟩))
    refine List.mem_filter.mpr ⟨hx, ?_⟩
    rw [hxe]
    exact contains_true_iff.mpr (List.mem_map.mpr ⟨it, hit, rfl⟩)

lemma keys_buildNewIndex_sub {items : List SyncItem} {idx : SyncIndex}
    {mode : SyncMode} {dir : String} (hvals : (idx.map Prod.snd).Nodup) :
    ∀ e ∈ buildNewIndex idx (computeSyncPlan items idx mode dir),
      (items.map SyncItem.id).contains e.1 = true := by
  intro e he
  rw [buildNewIndex_of_plan items idx mode dir hvals] at he
  rcases List.mem_append.mp he with hf | hc
  · exact (List.mem_filter.mp hf).2
  · rcases mem_insertFold_sub _ _ hc with hkeys | hin
    · simp at hkeys
    · obtain ⟨c, hcmem, hcid⟩ := hin
      rw [← hcid]
      exact contains_true_iff.mpr (List.mem_map.mpr
        ⟨c.item, (computeSyncPlan_toCreate_mem hcmem).1, rfl⟩)

lemma plan_empty_of_keys {items : List SyncItem} {idx2 : SyncIndex}
    {mode : SyncMode} {dir : String}
    (hall : ∀ it ∈ items, it.id ∈ idx2.map Prod.fst)
    (hkeys : ∀ e ∈ idx2, (items.map SyncItem.id).contains e.1 = true) :
    (computeSyncPlan items idx2 mode dir).toCreate = []
      ∧ (computeSyncPlan items idx2 mode dir).toRemove = [] := by
  constructor
  · have hmap : (computeSyncPlan items idx2 mode dir).toCreate.map
        CreateEntry.item = [] := by
      rw [computeSyncPlan_toCreate_map_item, List.filter_eq_nil_iff]
      intro it hit
      rw [contains_true_iff.mpr (hall it hit)]
      simp
    exact List.map_eq_nil_iff.mp hmap
  · rw [computeSyncPlan_toRemove]
    have hnil : idx2.filter (fun e => !(items.map SyncItem.id).contains e.1)
        = [] := by
      rw [List.filter_eq_nil_iff]
      intro e he
      rw [hkeys e he]
      simp
    rw [hnil]
    rfl

lemma generateTargetPath_file {it : SyncItem} {dir : String}
    {names : List String} {mode : SyncMode}
    (hmode : mode = SyncMode.entryFile ∨ mode = SyncMode.copy) :
    generateTargetPath it dir mode names
      = if !names.contains (strToLower (baseRender it)) then
          pathJoin dir (baseRender it)
        else pathJoin dir (collRender it) := by
  rcases hmode with h | h <;> subst h <;> rfl

lemma createFold_names_nodup {mode : SyncMode} {dir : String}
    (hmode : mode = SyncMode.entryFile ∨ mode = SyncMode.copy)
    (ids : List String) :
    ∀ (items : List SyncItem) (acc : List CreateEntry × List String),
    (∀ it ∈ items, noSlash it.ext ∧ noSlash (strToUpper (strTake it.id 8))) →
    List.Pairwise (fun a b => ¬ collClash a b) items →
    (∀ e ∈ acc.1, noSlash e.item.ext ∧ noSlash (strToUpper (strTake e.item.id 8))) →
    (∀ e ∈ acc.1, strToLower (basename e.targetPath) ∈ acc.2) →
    ((acc.1.map fun e => strToLower (basename e.targetPath)).Nodup) →
    (∀ e ∈ acc.1, e.targetPath = pathJoin dir (baseRender e.item)
        ∨ e.targetPath = pathJoin dir (collRender e.item)) →
    (∀ e ∈ acc.1, ∀ b ∈ items, ¬ collClash e.item b) →
    (((items.foldl (planCreateStep ids dir mode) acc).1).map
        (fun e => strToLower (basename e.targetPath))).Nodup := by
  intro items
  induction items with
  | nil => intro acc _ _ _ _ hnd _ _; exact hnd
  | cons it rest ih =>
    intro acc hns hpw hG hin hnd hshape hclash
    rw [List.foldl_cons]
    have hnsit := hns it (by simp)
    cases hcont : ids.contains it.id
    · rw [planCreateStep_fresh hcont]
      have htp := @generateTargetPath_file it dir acc.2 mode hmode
      have hshapeNew : generateTargetPath it dir mode acc.2
            = pathJoin dir (baseRender it)
          ∨ generateTargetPath it dir mode acc.2
            = pathJoin dir (collRender it) := by
        rw [htp]
        cases hb : acc.2.contains (strToLower (baseRender it)) <;> simp
      have hkey : strToLower (basename (generateTargetPath it dir mode acc.2))
          ∉ acc.1.map (fun e => strToLower (basename e.targetPath)) := by
        cases hb : acc.2.contains (strToLower (baseRender it))
        · rw [hb] at htp
          simp only [Bool.not_false, if_true] at htp
          rw [htp, basename_pathJoin _ (noSlash_baseRender hnsit.1)]
          intro hmem
          obtain ⟨e, he, hei⟩ := List.mem_map.mp hmem
          have hmem2 : strToLower (baseRender it) ∈ acc.2 := by
            rw [← hei]
            exact hin e he
          exact contains_false_iff.mp hb hmem2
        · rw [hb] at htp
          simp only [Bool.not_true, Bool.false_eq_true, if_false] at htp
          rw [htp, basename_pathJoin _ (noSlash_collRender hnsit.1 hnsit.2)]
          intro hmem
          obtain ⟨e, he, hei⟩ := List.mem_map.mp hmem
          have hGe := hG e he
          rcases hshape e he with hsh | hsh
          · rw [hsh, basename_pathJoin _ (noSlash_baseRender hGe.1)] at hei
            exact hclash e he it (by simp) (Or.inl hei.symm)
          · rw [hsh, basename_pathJoin _ (noSlash_collRender hGe.1 hGe.2)] at hei
            exact hclash e he it (by simp) (Or.inr hei.symm)
      refine ih _ (fun b hb => hns b (by simp [hb]))
        (List.pairwise_cons.mp hpw).2 ?_ ?_ ?_ ?_ ?_
      · intro e he
        rcases List.mem_append.mp he with hold | hnew
        · exact hG e hold
        · have : e = (⟨it, generateTargetPath it dir mode acc.2⟩ : CreateEntry) := by
            simpa using hnew
          subst this
          exact hnsit
      · intro e he
        rcases List.mem_append.mp he with hold | hnew
        · exact List.mem_cons.mpr (Or.inr (hin e hold))
        · have : e = (⟨it, generateTargetPath it dir mode acc.2⟩ : CreateEntry) := by
            simpa using hnew
          subst this
          exact List.mem_cons.mpr (Or.inl rfl)
      · rw [List.map_append]
        have : (acc.1.map fun e => strToLower (basename e.targetPath))
            ++ [strToLower (basename (generateTargetPath it dir mode acc.2))]
            = (acc.1.map fun e => strToLower (basename e.targetPath))
            ++ strToLower (basename (generateTargetPath it dir mode acc.2)) :: [] :=
          rfl
        rw [List.map_cons, List.map_nil, this, List.nodup_middle]
        rw [List.nodup_cons]
        exact ⟨by simpa using hkey, by simpa using hnd⟩
      · intro e he
        rcases List.mem_append.mp he with hold | hnew
        · exact hshape e hold
        · have : e = (⟨it, generateTargetPath it dir mode acc.2⟩ : CreateEntry) := by
            simpa using hnew
          subst this
          exact hshapeNew
      · intro e he b hb
        rcases List.mem_append.mp he with hold | hnew
        · exact hclash e hold b (by simp [hb])
        · have : e = (⟨it, generateTargetPath it dir mode acc.2⟩ : CreateEntry) := by
            simpa using hnew
          subst this
          exact (List.pairwise_cons.mp hpw).1 b hb
    · rw [planCreateStep_stale hcont]
      exact ih acc (fun b hb => hns b (by simp [hb]))
        (List.pairwise_cons.mp hpw).2 hG hin hnd hshape
        (fun e he b hb => hclash e he b (by simp [hb]))

lemma plan_create_names_nodup (items : List SyncItem) (idx : SyncIndex)
    {mode : SyncMode} (dir : String)
    (hmode : mode = SyncMode.entryFile ∨ mode = SyncMode.copy)
    (hns : ∀ it ∈ items, noSlash it.ext ∧ noSlash (strToUpper (strTake it.id 8)))
    (hpw : List.Pairwise (fun a b => ¬ collClash a b) items) :
    (((computeSyncPlan items idx mode dir).toCreate).map
      (fun e => strToLower (basename e.targetPath))).Nodup := by
  refine createFold_names_nodup hmode (idx.map Prod.fst) items
    ([], planExistingNames items idx) hns hpw ?_ ?_ ?_ ?_ ?_ <;> simp

lemma indexInsert_fresh {idx : SyncIndex} {k v : String}
    (h : k ∉ idx.map Prod.fst) : indexInsert idx k v = idx ++ [(k, v)] := by
  unfold indexInsert
  rw [if_neg (by simp [any_key_eq_false_of_not_mem h])]

lemma filter_isSome_removalErrs (A : List String) :
    ((A.map fun p => (⟨none, some p⟩ : SyncError)).filter
      fun er => er.item.isSome) = [] := by
  induction A with
  | nil => rfl
  | cons p rest ih => simp

lemma filter_isSome_creationErrs (B : List CreateEntry) :
    ((B.map fun e => (⟨some e.item, none⟩ : SyncError)).filter
      fun er => er.item.isSome) = B.map (fun e => ⟨some e.item, none⟩) := by
  induction B with
  | nil => rfl
  | cons e rest ih => simp

lemma length_filter_partition {α : Type} (p q : α → Bool) (l : List α) :
    (l.filter p).length + (l.filter fun a => !p a && q a).length
      + (l.filter fun a => !p a && !q a).length = l.length := by
  induction l with
  | nil => rfl
  | cons a rest ih =>
    rw [List.filter_cons, List.filter_cons, List.filter_cons]
    cases hp : p a <;> cases hq : q a <;> simp <;> omega

/-- Claim C1: for distinct-id desired items and any previous index, the plan
partitions correctly: `toCreate` holds exactly the desired items whose id is
not an index key, in caller order, and `toRemove` holds exactly the paths of
index entries whose id is not among the desired ids. -/
theorem C1_plan_partition (items : List SyncItem) (idx : SyncIndex)
    (mode : SyncMode) (dir : String)
    (_hids : (items.map SyncItem.id).Nodup) :
    (computeSyncPlan items idx mode dir).toCreate.map CreateEntry.item
        = items.filter (fun it => !(idx.map Prod.fst).contains it.id)
      ∧ (computeSyncPlan items idx mode dir).toRemove
        = (idx.filter fun e => !(items.map SyncItem.id).contains e.1).map
            Prod.snd :=
  ⟨computeSyncPlan_toCreate_map_item items idx mode dir,
   computeSyncPlan_toRemove items idx mode dir⟩

/-- Witness for C1 at a concrete two-item input with one id already indexed. -/
theorem C1_plan_partition_witness :
    ([mkItem "A" "a" "png", mkItem "B" "b" "png"].map SyncItem.id).Nodup
    ∧ ((computeSyncPlan [mkItem "A" "a" "png", mkItem "B" "b" "png"]
          [("A", "t/a.png"), ("C", "t/c.png")] SyncMode.entryFile "t").toCreate.map
            CreateEntry.item
        = [mkItem "A" "a" "png", mkItem "B" "b" "png"].filter
            (fun it => !((([("A", "t/a.png"), ("C", "t/c.png")] : SyncIndex).map
              Prod.fst)).contains it.id)
      ∧ (computeSyncPlan [mkItem "A" "a" "png", mkItem "B" "b" "png"]
          [("A", "t/a.png"), ("C", "t/c.png")] SyncMode.entryFile "t").toRemove
        = (([("A", "t/a.png"), ("C", "t/c.png")] : SyncIndex).filter
            (fun e => !([mkItem "A" "a" "png", mkItem "B" "b" "png"].map
              SyncItem.id).contains e.1)).map Prod.snd) :=
  ⟨by decide,
   C1_plan_partition [mkItem "A" "a" "png", mkItem "B" "b" "png"]
     [("A", "t/a.png"), ("C", "t/c.png")] SyncMode.entryFile "t" (by decide)⟩

/-- Claim C4: with the two stated items, an empty index and mode
`entry-file`, the first item gets `targetDir/x.png` and the second the
id-suffixed `targetDir/x (BBBBBBBB).png`; in general a colliding item's
name is deterministically its sanitized name suffixed with the upper-cased
first 8 characters of its own id. -/
theorem C4_collision_determinism :
    ((computeSyncPlan
        [mkItem "AAAAAAAA1111" "x" "png", mkItem "BBBBBBBB2222" "x" "png"]
        [] SyncMode.entryFile "t").toCreate.map CreateEntry.targetPath
      = ["t/x.png", "t/x (BBBBBBBB).png"])
    ∧ ∀ (it : SyncItem) (dir : String) (mode : SyncMode) (names : List String),
        (mode = SyncMode.entryFile ∨ mode = SyncMode.copy) →
        names.contains (strToLower (baseRender it)) = true →
        generateTargetPath it dir mode names
          = pathJoin dir (sanitizeFilename it.name ++ " ("
              ++ strToUpper (strTake it.id 8) ++ ")." ++ it.ext) := by
  constructor
  · decide
  · intro it dir mode names hmode hcoll
    rw [generateTargetPath_file hmode, hcoll]
    simp only [Bool.not_true, Bool.false_eq_true, if_false]
    rfl

/-- Witness for C4's general clause at a concrete colliding item. -/
theorem C4_collision_determinism_witness :
    generateTargetPath (mkItem "BBBBBBBB2222" "x" "png") "t" SyncMode.entryFile
        ["x.png"]
      = pathJoin "t" (sanitizeFilename "x" ++ " ("
          ++ strToUpper (strTake "BBBBBBBB2222" 8) ++ ")." ++ "png") :=
  C4_collision_determinism.2 (mkItem "BBBBBBBB2222" "x" "png") "t"
    SyncMode.entryFile ["x.png"] (Or.inl rfl) (by decide)

/-- Claim C5: in entry-directory mode the generated path is always
`targetDir/{id}.info`, whatever the names in use, and two items with
distinct ids therefore get distinct paths. -/
theorem C5_entry_dir_uniqueness (it1 it2 : SyncItem) (dir : String)
    (names1 names2 : List String) :
    (generateTargetPath it1 dir SyncMode.entryDir names1
        = pathJoin dir (it1.id ++ ".info"))
    ∧ (it1.id ≠ it2.id →
        generateTargetPath it1 dir SyncMode.entryDir names1
          ≠ generateTargetPath it2 dir SyncMode.entryDir names2) := by
  refine ⟨rfl, ?_⟩
  intro hne hEq
  apply hne
  have h1 : pathJoin dir (it1.id ++ ".info") = pathJoin dir (it2.id ++ ".info") :=
    hEq
  unfold pathJoin at h1
  have h0 := congrArg String.data h1
  simp only [String.data_append] at h0
  have h3 := List.append_cancel_left h0
  have h4 := List.append_cancel_right h3
  exact String.ext h4

/-- Witness for C5 at two items with distinct ids and different name sets. -/
theorem C5_entry_dir_uniqueness_witness :
    (generateTargetPath (mkItem "A1" "n" "png") "t" SyncMode.entryDir ["z"]
        = pathJoin "t" ("A1" ++ ".info"))
    ∧ (generateTargetPath (mkItem "A1" "n" "png") "t" SyncMode.entryDir ["z"]
        ≠ generateTargetPath (mkItem "B2" "n" "png") "t" SyncMode.entryDir []) :=
  ⟨(C5_entry_dir_uniqueness (mkItem "A1" "n" "png") (mkItem "B2" "n" "png")
      "t" ["z"] []).1,
   (C5_entry_dir_uniqueness (mkItem "A1" "n" "png") (mkItem "B2" "n" "png")
      "t" ["z"] []).2 (by decide)⟩

/-- Claim C7: a `toRemove` path whose link-aware probe observes nothing
contributes no error and no removal; `removed` counts exactly the paths
that were observed and successfully deleted. -/
theorem C7_removal_tolerance (env : FsEnv) (plan : SyncPlan) (mode : SyncMode)
    (idx : SyncIndex) (opts : ExecuteOptions) :
    (executePlan env plan mode idx opts).removed
        = (plan.toRemove.filter fun p =>
            removalAttempted env p && env.rmOk p).length
    ∧ ∀ p ∈ plan.toRemove, removalAttempted env p = false →
        (⟨none, some p⟩ : SyncError) ∉ (executePlan env plan mode idx opts).errors := by
  constructor
  · rw [executePlan_spec]
    rfl
  · intro p hp hprobe hmem
    rw [executePlan_spec] at hmem
    simp only [executeSpec] at hmem
    rcases List.mem_append.mp hmem with hrem | hcre
    · obtain ⟨q, hq, hqe⟩ := List.mem_map.mp hrem
      have hq2 : q = p := by simpa [SyncError.mk.injEq] using hqe
      subst hq2
      have hflt := (List.mem_filter.mp hq).2
      rw [hprobe] at hflt
      simp at hflt
    · obtain ⟨e, _, hee⟩ := List.mem_map.mp hcre
      simp [SyncError.mk.injEq] at hee

/-- Witness for C7: under an oracle whose probes raise, a removal path
produces no error and nothing is counted removed. -/
theorem C7_removal_tolerance_witness :
    ((executePlan envProbeRaises ⟨[], ["p"], []⟩ SyncMode.entryFile [] optsLib).removed
        = ((["p"] : List String).filter fun q =>
            removalAttempted envProbeRaises q && envProbeRaises.rmOk q).length)
    ∧ (⟨none, some "p"⟩ : SyncError)
        ∉ (executePlan envProbeRaises ⟨[], ["p"], []⟩ SyncMode.entryFile []
            optsLib).errors :=
  ⟨(C7_removal_tolerance envProbeRaises ⟨[], ["p"], []⟩ SyncMode.entryFile []
      optsLib).1,
   (C7_removal_tolerance envProbeRaises ⟨[], ["p"], []⟩ SyncMode.entryFile []
      optsLib).2 "p" (by decide) (by decide)⟩

/-- Claim C8 counterexample: a `toRemove` path whose `lstat` probe raises is
silently treated as absent — `SyncResult.errors` stays empty (and nothing is
removed), where the claim demands a path-keyed error. -/
theorem C8_error_surfacing_counterexample :
    envProbeRaises.lstat "p" = ProbeResult.errored
    ∧ (executePlan envProbeRaises ⟨[], ["p"], []⟩ SyncMode.entryFile []
        optsLib).errors = []
    ∧ (executePlan envProbeRaises ⟨[], ["p"], []⟩ SyncMode.entryFile []
        optsLib).removed = 0 := by
  decide

/-- Claim C8 (amended): `SyncResult.errors` consists of exactly one
path-keyed entry per removal whose probe observed an entry and whose
deletion raised, followed by exactly one item-keyed entry per creation that
was attempted (not skipped) and whose creation operation raised; probe
failures surface as skips or as silent already-removed treatment, never as
errors. -/
theorem C8_error_surfacing_amended (env : FsEnv) (plan : SyncPlan)
    (mode : SyncMode) (idx : SyncIndex) (opts : ExecuteOptions) :
    (executePlan env plan mode idx opts).errors
      = (plan.toRemove.filter fun p =>
            removalAttempted env p && !env.rmOk p).map
          (fun p => ⟨none, some p⟩)
        ++ (plan.toCreate.filter fun e =>
              !createSkipped env mode e && !createOk env opts mode e).map
            (fun e => ⟨some e.item, none⟩) := by
  rw [executePlan_spec]
  rfl

/-- Claim C2 counterexample: with a previous index in which two entries
share the same target path, one run that computes a plan and executes it
with full success (no errors, no skips) still leaves a second plan that is
not empty — the removal repair deletes the entry of the still-desired item
instead of the stale one. -/
theorem C2_idempotence_counterexample :
    (let idx : SyncIndex := [("a", "p"), ("b", "p")]
     let items := [mkItem "a" "x" "png"]
     let plan := computeSyncPlan items idx SyncMode.entryFile "t"
     let r := executePlan envAllOk plan SyncMode.entryFile idx optsLib
     r.errors = [] ∧ r.skipped = 0
       ∧ (computeSyncPlan items r.newIndex SyncMode.entryFile "t").toCreate
          ≠ []) := by
  decide

/-- Claim C2 (amended): provided no two entries of the previous index share
a target path, and the execution skips nothing and every creation succeeds,
recomputing the plan with the same desired items against the executed
index yields empty `toCreate` and empty `toRemove`. -/
theorem C2_idempotence_amended (items : List SyncItem) (idx : SyncIndex)
    (mode : SyncMode) (dir : String) (env : FsEnv) (opts : ExecuteOptions)
    (hvals : (idx.map Prod.snd).Nodup)
    (hsucc : ∀ e ∈ (computeSyncPlan items idx mode dir).toCreate,
      createSkipped env mode e = false ∧ createOk env opts mode e = true) :
    (computeSyncPlan items
        (executePlan env (computeSyncPlan items idx mode dir) mode idx
          opts).newIndex mode dir).toCreate = []
    ∧ (computeSyncPlan items
        (executePlan env (computeSyncPlan items idx mode dir) mode idx
          opts).newIndex mode dir).toRemove = [] := by
  rw [newIndex_agree hsucc]
  exact plan_empty_of_keys (mem_keys_buildNewIndex hvals)
    (keys_buildNewIndex_sub hvals)

/-- Witness for C2 (amended) at one desired item over a one-entry index. -/
theorem C2_idempotence_amended_witness :
    (([("b0", "q")] : SyncIndex).map Prod.snd).Nodup
    ∧ ((computeSyncPlan [mkItem "a" "x" "png"]
          (executePlan envAllOk
            (computeSyncPlan [mkItem "a" "x" "png"] [("b0", "q")]
              SyncMode.entryFile "t")
            SyncMode.entryFile [("b0", "q")] optsLib).newIndex
          SyncMode.entryFile "t").toCreate = []
      ∧ (computeSyncPlan [mkItem "a" "x" "png"]
          (executePlan envAllOk
            (computeSyncPlan [mkItem "a" "x" "png"] [("b0", "q")]
              SyncMode.entryFile "t")
            SyncMode.entryFile [("b0", "q")] optsLib).newIndex
          SyncMode.entryFile "t").toRemove = []) :=
  ⟨by decide,
   C2_idempotence_amended [mkItem "a" "x" "png"] [("b0", "q")]
     SyncMode.entryFile "t" envAllOk optsLib (by decide) (by decide)⟩

/-- Claim C3 counterexample: three distinct-id items sharing sanitized
name, extension and upper-cased first-8-id yield two identical target
paths, because the id-suffixed collision name is never checked against
`namesInUse` — refuting the claim's parenthetical and invariant I2. -/
theorem C3_name_uniqueness_counterexample :
    (let items := [mkItem "AAAAAAAA1111" "x" "png",
                   mkItem "AAAAAAAA2222" "x" "png",
                   mkItem "AAAAAAAA3333" "x" "png"]
     (items.map SyncItem.id).Nodup
       ∧ ¬ (((computeSyncPlan items [] SyncMode.entryFile "t").toCreate.map
              (fun e => strToLower (basename e.targetPath))).Nodup)) := by
  decide

/-- Claim C3 (amended): in entry-file or copy mode, with distinct-id items
whose extensions and upper-cased first-8-id prefixes are free of path
separators, and no item's id-suffixed collision rendering coinciding
case-insensitively with an earlier item's base or collision rendering, the
target paths in `toCreate` have pairwise distinct lower-cased final
components. -/
theorem C3_name_uniqueness_amended (items : List SyncItem) (idx : SyncIndex)
    (mode : SyncMode) (dir : String)
    (hmode : mode = SyncMode.entryFile ∨ mode = SyncMode.copy)
    (_hids : (items.map SyncItem.id).Nodup)
    (hns : ∀ it ∈ items, noSlash it.ext ∧ noSlash (strToUpper (strTake it.id 8)))
    (hpw : List.Pairwise (fun a b => ¬ collClash a b) items) :
    (((computeSyncPlan items idx mode dir).toCreate).map
      (fun e => strToLower (basename e.targetPath))).Nodup :=
  plan_create_names_nodup items idx dir hmode hns hpw

/-- Witness for C3 (amended) at two items with equal names but different
id prefixes. -/
theorem C3_name_uniqueness_amended_witness :
    ((([mkItem "AAAAAAAA1111" "x" "png", mkItem "BBBBBBBB2222" "x" "png"]).map
        SyncItem.id).Nodup)
    ∧ (((computeSyncPlan
          [mkItem "AAAAAAAA1111" "x" "png", mkItem "BBBBBBBB2222" "x" "png"]
          [] SyncMode.entryFile "t").toCreate).map
        (fun e => strToLower (basename e.targetPath))).Nodup :=
  ⟨by decide,
   C3_name_uniqueness_amended
     [mkItem "AAAAAAAA1111" "x" "png", mkItem "BBBBBBBB2222" "x" "png"]
     [] SyncMode.entryFile "t" (Or.inl rfl) (by decide) (by decide) (by decide)⟩

/-- Claim C6: in entry-file or copy mode, a plan with two creations and
nothing else, exactly one of them with an absent source and every other
operation succeeding, executes to `created = 1`, `skipped = 1`, no errors,
and an index extended only with the successfully created item. -/
theorem C6_partial_failure_accounting (env : FsEnv) (idx : SyncIndex)
    (opts : ExecuteOptions) (mode : SyncMode) (eSk eSu : CreateEntry)
    (plan : SyncPlan)
    (hmode : mode = SyncMode.entryFile ∨ mode = SyncMode.copy)
    (hplan : plan.toCreate = [eSk, eSu] ∨ plan.toCreate = [eSu, eSk])
    (hrem : plan.toRemove = []) (hskip : plan.skipped = [])
    (habs : env.statSrc eSk.item.filePath = ProbeResult.notFound)
    (hpres : env.statSrc eSu.item.filePath = ProbeResult.found)
    (hok : createOk env opts mode eSu = true)
    (hfresh : eSu.item.id ∉ idx.map Prod.fst) :
    (executePlan env plan mode idx opts).created = 1
    ∧ (executePlan env plan mode idx opts).skipped = 1
    ∧ (executePlan env plan mode idx opts).errors = []
    ∧ (executePlan env plan mode idx opts).newIndex
        = idx ++ [(eSu.item.id, eSu.targetPath)] := by
  have hskSk : createSkipped env mode eSk = true := by
    rcases hmode with h | h <;> subst h <;> simp [createSkipped, habs]
  have hskSu : createSkipped env mode eSu = false := by
    rcases hmode with h | h <;> subst h <;> simp [createSkipped, hpres]
  rw [executePlan_spec]
  rcases hplan with hpl | hpl <;>
    simp [executeSpec, hpl, hrem, hskip, hskSk, hskSu, hok, condInsertFold,
      removeIndexEntries, indexInsert_fresh hfresh]

/-- Witness for C6: two concrete creations, the first with an absent
source file. -/
theorem C6_partial_failure_accounting_witness :
    (executePlan envMissingA
        ⟨[⟨mkItem "A" "a" "png", "t/a.png"⟩, ⟨mkItem "B" "b" "png", "t/b.png"⟩],
          [], []⟩
        SyncMode.entryFile [] optsLib).created = 1
    ∧ (executePlan envMissingA
        ⟨[⟨mkItem "A" "a" "png", "t/a.png"⟩, ⟨mkItem "B" "b" "png", "t/b.png"⟩],
          [], []⟩
        SyncMode.entryFile [] optsLib).skipped = 1
    ∧ (executePlan envMissingA
        ⟨[⟨mkItem "A" "a" "png", "t/a.png"⟩, ⟨mkItem "B" "b" "png", "t/b.png"⟩],
          [], []⟩
        SyncMode.entryFile [] optsLib).errors = []
    ∧ (executePlan envMissingA
        ⟨[⟨mkItem "A" "a" "png", "t/a.png"⟩, ⟨mkItem "B" "b" "png", "t/b.png"⟩],
          [], []⟩
        SyncMode.entryFile [] optsLib).newIndex
        = [] ++ [((mkItem "B" "b" "png").id, "t/b.png")] :=
  C6_partial_failure_accounting envMissingA [] optsLib SyncMode.entryFile
    ⟨mkItem "A" "a" "png", "t/a.png"⟩ ⟨mkItem "B" "b" "png", "t/b.png"⟩
    ⟨[⟨mkItem "A" "a" "png", "t/a.png"⟩, ⟨mkItem "B" "b" "png", "t/b.png"⟩],
      [], []⟩
    (Or.inl rfl) (Or.inl rfl) rfl rfl (by decide) (by decide) (by decide)
    (by decide)

/-- Claim C9 counterexample: for an arbitrary plan that both creates and
removes the same path over an empty index, execution succeeds fully yet the
executor's `newIndex` differs from `buildNewIndex` — the executor repairs
removals after creations and deletes the entry it just created, while
`buildNewIndex` removes first and keeps it. -/
theorem C9_index_agreement_counterexample :
    (let plan : SyncPlan := ⟨[⟨mkItem "b" "x" "png", "p"⟩], ["p"], []⟩
     let r := executePlan envAllOk plan SyncMode.entryFile [] optsLib
     r.created = 1 ∧ r.skipped = 0 ∧ r.removed = 1 ∧ r.errors = []
       ∧ r.newIndex ≠ buildNewIndex [] plan) := by
  decide

/-- Claim C9 (amended): when the plan was produced by `computeSyncPlan`
from the same previous index, and every creation succeeds with no item
skipped (removals of existing entries succeeding as stated), the
executor's `newIndex` equals `buildNewIndex previousIndex plan`. -/
theorem C9_index_agreement_amended (env : FsEnv) (opts : ExecuteOptions)
    (mode : SyncMode) (items : List SyncItem) (idx : SyncIndex) (dir : String)
    (hsucc : ∀ e ∈ (computeSyncPlan items idx mode dir).toCreate,
      createSkipped env mode e = false ∧ createOk env opts mode e = true)
    (_hrem : ∀ p ∈ (computeSyncPlan items idx mode dir).toRemove,
      env.lstat p = ProbeResult.found → env.rmOk p = true) :
    (executePlan env (computeSyncPlan items idx mode dir) mode idx opts).newIndex
      = buildNewIndex idx (computeSyncPlan items idx mode dir) :=
  newIndex_agree hsucc

/-- Witness for C9 (amended) at one fresh item and a one-entry index. -/
theorem C9_index_agreement_amended_witness :
    (executePlan envAllOk
        (computeSyncPlan [mkItem "c" "y" "png"] [("d0", "r")]
          SyncMode.entryFile "t")
        SyncMode.entryFile [("d0", "r")] optsLib).newIndex
      = buildNewIndex [("d0", "r")]
          (computeSyncPlan [mkItem "c" "y" "png"] [("d0", "r")]
            SyncMode.entryFile "t") :=
  C9_index_agreement_amended envAllOk optsLib SyncMode.entryFile
    [mkItem "c" "y" "png"] [("d0", "r")] "t" (by decide) (by decide)

/-- Claim C10: in entry-file or copy mode every `toCreate` entry is
accounted for exactly once — the created count, the skips beyond the
planned ones, and the item-keyed errors sum to the length of `toCreate`. -/
theorem C10_creation_accounting (env : FsEnv) (plan : SyncPlan)
    (mode : SyncMode) (idx : SyncIndex) (opts : ExecuteOptions)
    (_hmode : mode = SyncMode.entryFile ∨ mode = SyncMode.copy) :
    (executePlan env plan mode idx opts).created
      + ((executePlan env plan mode idx opts).skipped - plan.skipped.length)
      + ((executePlan env plan mode idx opts).errors.filter
          (fun er => er.item.isSome)).length
      = plan.toCreate.length := by
  rw [executePlan_spec]
  simp only [executeSpec]
  rw [List.filter_append, filter_isSome_removalErrs, filter_isSome_creationErrs]
  rw [List.nil_append, List.length_map]
  have hpart := length_filter_partition (createSkipped env mode)
    (createOk env opts mode) plan.toCreate
  omega

/-- Witness for C10: a two-entry plan with one absent source under the
concrete oracle. -/
theorem C10_creation_accounting_witness :
    (executePlan envMissingA
        ⟨[⟨mkItem "A" "a" "png", "t/a.png"⟩, ⟨mkItem "B" "b" "png", "t/b.png"⟩],
          [], []⟩
        SyncMode.entryFile [] optsLib).created
      + ((executePlan envMissingA
          ⟨[⟨mkItem "A" "a" "png", "t/a.png"⟩, ⟨mkItem "B" "b" "png", "t/b.png"⟩],
            [], []⟩
          SyncMode.entryFile [] optsLib).skipped
        - (SyncPlan.mk
            [⟨mkItem "A" "a" "png", "t/a.png"⟩, ⟨mkItem "B" "b" "png", "t/b.png"⟩]
            [] []).skipped.length)
      + ((executePlan envMissingA
          ⟨[⟨mkItem "A" "a" "png", "t/a.png"⟩, ⟨mkItem "B" "b" "png", "t/b.png"⟩],
            [], []⟩
          SyncMode.entryFile [] optsLib).errors.filter
            (fun er => er.item.isSome)).length
      = (SyncPlan.mk
          [⟨mkItem "A" "a" "png", "t/a.png"⟩, ⟨mkItem "B" "b" "png", "t/b.png"⟩]
          [] []).toCreate.length :=
  C10_creation_accounting envMissingA
    ⟨[⟨mkItem "A" "a" "png", "t/a.png"⟩, ⟨mkItem "B" "b" "png", "t/b.png"⟩],
      [], []⟩
    SyncMode.entryFile [] optsLib (Or.inl rfl)

end EagleSync
